import Mathlib

/-!
Verification of the Olivetti Programma 101 emulator (`src/emulator.py`,
the later revision, which the spec treats as authoritative).

The emulator is shallowly embedded:
* numpy `short` arrays of length 24 become `List ℤ` (digit cells hold 0–9,
  cell 22 is the float position, cell 23 the sign flag; int16 overflow is
  never reached by the emulator's writes and is not modelled);
* the eight global `Register` objects become a heap of arrays plus, for each
  register name, the index of the array it currently references — this keeps
  Python's reference semantics (`A.reg = M.reg` aliases the array object);
* Python strings become `List Char`; Python's substring test `s in t`, the
  negative-index slices `s[:-k]` / `s[-k:]`, `str.find`, `int(...)` and
  `float(...)` parsing are each given explicit models below;
* Python ints and floats become `PyNum`; float arithmetic is modelled as
  exact rational arithmetic (the claims checked here never depend on binary
  floating-point rounding), and `str` of a float renders the exact decimal
  expansion truncated to 17 fractional digits;
* exceptions become an explicit `Exn` outcome carried next to the state at
  the moment the exception escapes (`loop` has no handler for them, so they
  abort the run);
* the interactive `while True: input()` loop becomes a function over a finite
  list of input lines; the `d` key consumes the following line, as in the
  source.
-/

namespace Olivetti

/-- Python substring test `s in t` (contiguous; the empty string is a
substring of everything, as in Python). -/
def pyInStr : List Char → List Char → Bool
  | s, [] => s.isEmpty
  | s, t@(_ :: t') => (t.take s.length == s) || pyInStr s t'

/-- Python `t.find(ch)` : index of the first occurrence, `-1` if absent. -/
def pyFind (t : List Char) (ch : Char) : ℤ :=
  match t.findIdx? (· = ch) with
  | some i => (i : ℤ)
  | none => -1

/-- Python `s[:-k]` for an integer `k`: empty when `k = 0` (because `-0 = 0`),
`dropLast k` when `k > 0`, `take (-k)` when `k < 0`. -/
def pySliceUptoNeg (s : List Char) (k : ℤ) : List Char :=
  if k = 0 then [] else if 0 < k then s.take (s.length - k.toNat) else s.take (-k).toNat

/-- Python `s[-k:]` for an integer `k`: the whole string when `k = 0`,
the last `k` characters when `k > 0`, `drop (-k)` when `k < 0`. -/
def pySliceFromNeg (s : List Char) (k : ℤ) : List Char :=
  if k = 0 then s else if 0 < k then s.drop (s.length - k.toNat) else s.drop (-k).toNat

/-- Numeric value of a digit string (used by the `int`/`float` parsing models). -/
def natVal (s : List Char) : ℤ :=
  s.foldl (fun a c => 10 * a + ((c.toNat : ℤ) - 48)) 0

/-- Python `int(s)` on the strings the emulator builds: an optional single
sign followed by a nonempty run of digits; anything else raises `ValueError`
(`none`). -/
def pyIntParse : List Char → Option ℤ
  | '+' :: r => if r ≠ [] ∧ r.all (·.isDigit) then some (natVal r) else none
  | '-' :: r => if r ≠ [] ∧ r.all (·.isDigit) then some (-(natVal r)) else none
  | r => if r ≠ [] ∧ r.all (·.isDigit) then some (natVal r) else none

/-- Python `float(s)` on the strings the emulator builds: an optional single
sign, digits, an optional dot, digits, with at least one digit present.
Exponent forms are never produced by the emulator and are not modelled.
A sign appearing after the dot (which `read_register` produces when
`float_pos = 0`) raises `ValueError` (`none`). -/
def pyFloatParse (s : List Char) : Option ℚ :=
  let p : ℚ × List Char :=
    match s with
    | '+' :: r => (1, r)
    | '-' :: r => (-1, r)
    | r => (1, r)
  let ip := p.2.takeWhile (·.isDigit)
  let rest := p.2.drop ip.length
  match rest with
  | [] => if ip.isEmpty then none else some (p.1 * (natVal ip : ℚ))
  | '.' :: fr =>
      if fr.all (·.isDigit) ∧ (ip ≠ [] ∨ fr ≠ []) then
        some (p.1 * ((natVal ip : ℚ) + (natVal fr : ℚ) / 10 ^ fr.length))
      else none
  | _ => none

/-- Python `str` of an integer. -/
def intStr (n : ℤ) : List Char :=
  if n < 0 then '-' :: (Nat.repr n.natAbs).data else (Nat.repr n.toNat).data

/-- A Python number: `int` or `float`.  Floats are modelled as exact
rationals; no claim settled here depends on binary floating-point rounding. -/
inductive PyNum
  | pint (n : ℤ)
  | pfloat (q : ℚ)
  deriving DecidableEq

/-- The rational value of a Python number. -/
def PyNum.toQ : PyNum → ℚ
  | .pint n => (n : ℚ)
  | .pfloat q => q

/-- Numeric zero test (the condition under which Python division raises
`ZeroDivisionError`, for both `int` and `float` divisors). -/
def numIsZero : PyNum → Bool
  | .pint n => n == 0
  | .pfloat q => q == 0

/-- Python `+` (int when both operands are ints, float otherwise). -/
def pyAdd : PyNum → PyNum → PyNum
  | .pint a, .pint b => .pint (a + b)
  | a, b => .pfloat (a.toQ + b.toQ)

/-- Python binary `-`. -/
def pySub : PyNum → PyNum → PyNum
  | .pint a, .pint b => .pint (a - b)
  | a, b => .pfloat (a.toQ - b.toQ)

/-- Python `*`. -/
def pyMul : PyNum → PyNum → PyNum
  | .pint a, .pint b => .pint (a * b)
  | a, b => .pfloat (a.toQ * b.toQ)

/-- Python true division `/` (always a float). -/
def pyDiv (a b : PyNum) : PyNum := .pfloat (a.toQ / b.toQ)

/-- Python `%` (floor modulus: the result takes the divisor's sign). -/
def pyMod : PyNum → PyNum → PyNum
  | .pint a, .pint b => .pint (a - b * Int.fdiv a b)
  | a, b => .pfloat (a.toQ - b.toQ * (⌊a.toQ / b.toQ⌋ : ℤ))

/-- Python `abs`. -/
def pyAbs : PyNum → PyNum
  | .pint n => .pint |n|
  | .pfloat q => .pfloat |q|

/-- Modelled stand-in for Python's `value ** 0.5` on the exact-rational float
model: the exact square root when it is rational, else 0.  No claim settled
in this file exercises the square-root key. -/
def pySqrt (q : ℚ) : ℚ :=
  let nn := q.num.toNat
  let dd := q.den
  if Nat.sqrt nn ^ 2 = nn ∧ Nat.sqrt dd ^ 2 = dd then
    (Nat.sqrt nn : ℚ) / (Nat.sqrt dd : ℚ)
  else 0

/-- Decimal digits of the fractional part `q` (with `0 ≤ q < 1`), at most
`fuel` of them (Python float repr shows at most 17 significant digits). -/
def fracDigits (q : ℚ) : ℕ → List Char
  | 0 => []
  | fuel + 1 =>
      if q = 0 then []
      else
        let q10 := q * 10
        let d := (⌊q10⌋ : ℤ).toNat
        Char.ofNat (48 + d) :: fracDigits (q10 - (d : ℚ)) fuel

/-- Python `str` of a number.  For the float case this renders the exact
decimal expansion (at least one fractional digit, as Python does), truncated
to 17 fractional digits when infinite — the exact-rational modelling note in
the file header applies. -/
def pyStr : PyNum → List Char
  | .pint n => intStr n
  | .pfloat q =>
      let sgn : List Char := if q < 0 then ['-'] else []
      let a := |q|
      let ip := (⌊a⌋ : ℤ).toNat
      let fr := fracDigits (a - (ip : ℚ)) 17
      sgn ++ (Nat.repr ip).data ++ '.' :: (if fr = [] then ['0'] else fr)

/-- The value of the global `n_digits`: `0` initially; the `d` key stores the
raw input line (a string — the source never converts it). -/
inductive PyVal
  | vint (n : ℤ)
  | vstr (s : List Char)
  deriving DecidableEq

/-- Python truthiness of `n_digits` (used by `if not n_digits`). -/
def pyTruthy : PyVal → Bool
  | .vint n => n != 0
  | .vstr s => !s.isEmpty

/-- Exceptions that can escape the emulator's code.  `loop` catches only
`ZeroDivisionError` (at the divide key), so any of these aborts the run. -/
inductive Exn
  | valErr      -- ValueError (e.g. float() on a malformed string)
  | idxErr      -- IndexError (numpy index ≥ 24)
  | typeErr     -- TypeError (int/str comparison after the d key)
  | synErr      -- the exec() of a malformed source fragment
  | overflow    -- Exception("Value too big for register.")
  | eofErr      -- input() at end of input
  deriving DecidableEq

/-- One line of produced output. -/
inductive Line
  | errMfull            -- 'error: M.reg is full'
  | errDivZero          -- 'error: division by zero'
  | errNegSqrt          -- 'error: squared root of negative number'
  | num (v : PyNum)     -- print(<register>.read_register())
  | res (s : List Char) -- print_result output
  | debug               -- print_registers dump (P key)
  deriving DecidableEq

/-- The eight named registers. -/
inductive RegName
  | M | A | R | B | C | D | E | F
  deriving DecidableEq

/-- A numpy array of `REG_LEN_MAX = 24` shorts. -/
abbrev Arr := List ℤ

/-- `np.zeros((REG_LEN_MAX), dtype='short')`. -/
def zeros24 : Arr := List.replicate 24 0

/-- The interpreter state: the array heap (Python object identities), which
array each register references, each register's `float_active` attribute, and
the module-level globals. -/
structure PyState where
  heap : List Arr
  regArr : RegName → ℕ
  floatAct : RegName → Bool
  previous_key : List Char
  previous_key_backup : List Char
  n_digits : PyVal

/-- The array currently referenced by register `n`. -/
def getArr (st : PyState) (n : RegName) : Arr := st.heap.getD (st.regArr n) []

/-- In-place mutation of the array referenced by register `n` (visible
through every register aliasing the same array). -/
def setArr (st : PyState) (n : RegName) (a : Arr) : PyState :=
  { st with heap := st.heap.set (st.regArr n) a }

/-- `Register.float_pos` property: cell 22. -/
def float_pos (st : PyState) (n : RegName) : ℤ := (getArr st n).getD 22 0

/-- `Register.sign` setter: cell 23 is 1 for '-', else 0. -/
def setSign (st : PyState) (n : RegName) (c : Char) : PyState :=
  setArr st n ((getArr st n).set 23 (if c = '-' then 1 else 0))

/-- `Register.is_full`: `not (self.reg[21] == 0 and self.float_pos != 21)`. -/
def is_full (st : PyState) (n : RegName) : Bool :=
  !((getArr st n).getD 21 0 == 0 && float_pos st n != 21)

/-- The digit-moving loop of `Register.shift`:
`for i in range(REG_LEN_MAX-3, 0, -1): self.reg[i] = self.reg[i-1]`,
written as a countdown: `shiftLoop a i` performs the iterations for the
indices `i, i-1, …, 1` (the body at index `i+1` runs first, matching the
descending range). -/
def shiftLoop (a : Arr) : ℕ → Arr
  | 0 => a
  | i + 1 => shiftLoop (a.set (i + 1) (a.getD i 0)) i

/-- The digit-moving loop run for `i = 21, …, 1`. -/
def shiftArr (a : Arr) : Arr := shiftLoop a 21

/-- `Register.shift`: move the digits, then bump `float_pos` if
`float_active`. -/
def shift (st : PyState) (n : RegName) : PyState :=
  let a1 := shiftArr (getArr st n)
  let a2 := if st.floatAct n then a1.set 22 (a1.getD 22 0 + 1) else a1
  setArr st n a2

/-- `Register.erase`: rebind `self.reg` to a fresh zero array (breaking any
aliasing), clear `float_active`, reset the sign. -/
def erase (st : PyState) (n : RegName) : PyState :=
  let st1 : PyState :=
    { st with
      heap := st.heap ++ [zeros24]
      regArr := Function.update st.regArr n st.heap.length
      floatAct := Function.update st.floatAct n false }
  setSign st1 n '+'

/-- `M.reg[0] = int(pressed_key)`-style single digit store. -/
def setDigit0 (st : PyState) (n : RegName) (v : ℤ) : PyState :=
  setArr st n ((getArr st n).set 0 v)

/-- `Register.read_register`: join `str` of the 22 digit cells, append the
sign, reverse; then parse as `int`, or — when `float_active` — splice a dot
`float_pos` characters from the end and parse as `float`.  `none` models the
parse raising `ValueError`. -/
def read_register (st : PyState) (n : RegName) : Option PyNum :=
  let arr := getArr st n
  let s0 := ((arr.take 22).map intStr).flatten
  let sgn : Char := if arr.getD 23 0 == 0 then '+' else '-'
  let reg_value := (s0 ++ [sgn]).reverse
  if st.floatAct n then
    let fp := arr.getD 22 0
    (pyFloatParse (pySliceUptoNeg reg_value fp ++ '.' :: pySliceFromNeg reg_value fp)).map
      PyNum.pfloat
  else (pyIntParse reg_value).map PyNum.pint

/-- The digit-writing loop of `Register.write_register`:
`for (i, x) in enumerate(value[::-1]): self.reg[i] = int(x)`.
`int(x)` is evaluated before the store, so a non-digit raises `ValueError`
first; a store at index ≥ 24 raises `IndexError`, leaving the earlier stores
in place. -/
def writeDigits (arr : Arr) (i : ℕ) : List Char → Arr × Option Exn
  | [] => (arr, none)
  | c :: rest =>
      if c.isDigit then
        if i < 24 then writeDigits (arr.set i ((c.toNat : ℤ) - 48)) (i + 1) rest
        else (arr, some .idxErr)
      else (arr, some .valErr)

/-- Shared tail of `Register.write_register`'s float branch: `float_active`
has been set, the dots removed, and the digit loop runs; an `IndexError` is
converted by the `except` clause into the overflow `Exception`. -/
def finishWrite (arr : Arr) (cs : List Char) : Arr × Bool × Option Exn :=
  match writeDigits arr 0 cs.reverse with
  | (a, some .idxErr) => (a, true, some .overflow)
  | (a, e) => (a, true, e)

/-- `Register.write_register` body, acting on the register's array and
`float_active` attribute, given the global `n_digits` and the already
stringified value (`str(value)` is the source's first statement).  Returns
the array as left by the call (partially written if an exception fired),
the new `float_active`, and the escaping exception if any.  An empty value
raises `IndexError` at `value[0]`, which the `except` turns into the
overflow `Exception`. -/
def write_body (nd : PyVal) (arr0 : Arr) (fa0 : Bool) (value0 : List Char) :
    Arr × Bool × Option Exn :=
  match value0 with
  | [] => (arr0, fa0, some .overflow)
  | v0 :: vrest =>
      let arr1 := arr0.set 23 (if v0 = '-' then 1 else 0)  -- self.sign = value[0]
      let value1 := if v0.isDigit then value0 else vrest   -- strip sign if any
      if value1.contains '.' then
        let fp : ℤ := pyFind value1.reverse '.'            -- value[::-1].find('.')
        let arr2 := arr1.set 22 fp                         -- self.float_pos = fp
        match nd with
        | .vstr _ => (arr2, fa0, some .typeErr)            -- int > str comparison
        | .vint ndv =>
            if fp > ndv then
              let value2 := pySliceUptoNeg value1 (fp - ndv)  -- truncate
              let arr3 := arr2.set 22 ndv                     -- self.float_pos = n_digits
              finishWrite arr3 (value2.filter (· ≠ '.'))
            else finishWrite arr2 (value1.filter (· ≠ '.'))
      else
        match writeDigits arr1 0 value1.reverse with
        | (a, some .idxErr) => (a, fa0, some .overflow)
        | (a, e) => (a, fa0, e)

/-- `write_register` on a named register of the interpreter state. -/
def write_register (st : PyState) (n : RegName) (value : List Char) :
    PyState × Option Exn :=
  let r := write_body st.n_digits (getArr st n) (st.floatAct n) value
  ({ setArr st n r.1 with floatAct := Function.update st.floatAct n r.2.1 }, r.2.2)

/-- `print_result`:
`print(f"{value}{''.join(['0' for _ in range(n_digits - str(value)[::-1].find('.'))])}")`.
With the string `n_digits` left by the `d` key the subtraction raises
`TypeError` before printing. -/
def print_result (nd : PyVal) (v : PyNum) : List Char × Option Exn :=
  let s := pyStr v
  match nd with
  | .vstr _ => ([], some .typeErr)
  | .vint ndv => (s ++ List.replicate (ndv - pyFind s.reverse '.').toNat '0', none)

/-- '0123456789'. -/
def DIGITS : List Char := ['0', '1', '2', '3', '4', '5', '6', '7', '8', '9']

/-- '0123456789,'. -/
def DIGITS_COMMA : List Char := DIGITS ++ [',']

/-- 'BCDEF'. -/
def BCDEF : List Char := ['B', 'C', 'D', 'E', 'F']

/-- 'ARBCDEF'. -/
def ARBCDEF : List Char := ['A', 'R', 'B', 'C', 'D', 'E', 'F']

/-- `int(pressed_key)` for a digit key. -/
def digitVal (c : Char) : ℤ := (c.toNat : ℤ) - 48

/-- The register object a single-character name resolves to inside the
`exec(f'...{previous_key}...')` fragments. -/
def regOfChar : Char → Option RegName
  | 'M' => some .M
  | 'A' => some .A
  | 'R' => some .R
  | 'B' => some .B
  | 'C' => some .C
  | 'D' => some .D
  | 'E' => some .E
  | 'F' => some .F
  | _ => none

/-- How one key processing step ends: fall through to the context update,
`continue` (skip it), or an exception escaping `loop`. -/
inductive Flow
  | norm
  | cont
  | crash (e : Exn)

/-- `M.erase(); A.erase(); ...` for the clear-all key. -/
def eraseAll (st : PyState) : PyState :=
  erase (erase (erase (erase (erase (erase (erase (erase st .M) .A) .R) .B) .C) .D) .E) .F

/-- Shared body of the `+` and `-` keys:
`value = M.read_register() <op> A.read_register(); A.write_register(value)`. -/
def binOp (st : PyState) (f : PyNum → PyNum → PyNum) : PyState × List Line × Flow :=
  match read_register st .M with
  | none => (st, [], .crash .valErr)
  | some m =>
      match read_register st .A with
      | none => (st, [], .crash .valErr)
      | some a =>
          match write_register st .A (pyStr (f m a)) with
          | (st1, some e) => (st1, [], .crash e)
          | (st1, none) => (st1, [], .norm)

/-- The `×` key: product into A and R, then `print_result`. -/
def mulKey (st : PyState) : PyState × List Line × Flow :=
  match read_register st .M with
  | none => (st, [], .crash .valErr)
  | some m =>
      match read_register st .A with
      | none => (st, [], .crash .valErr)
      | some a =>
          let v := pyMul m a
          match write_register st .A (pyStr v) with
          | (st1, some e) => (st1, [], .crash e)
          | (st1, none) =>
              match write_register st1 .R (pyStr v) with
              | (st2, some e) => (st2, [], .crash e)
              | (st2, none) =>
                  match print_result st2.n_digits v with
                  | (s, none) => (st2, [.res s], .norm)
                  | (_, some e) => (st2, [], .crash e)

/-- The `÷` key.  `M.read_register() / A.read_register()` raises
`ZeroDivisionError` exactly when A reads as numeric zero; the handler prints
the message and `continue`s — skipping the context update.  Otherwise, when
`n_digits` is falsy, the remainder `M % A` goes to R, the quotient to A, and
the quotient is displayed. -/
def divKey (st : PyState) : PyState × List Line × Flow :=
  match read_register st .M with
  | none => (st, [], .crash .valErr)
  | some m =>
      match read_register st .A with
      | none => (st, [], .crash .valErr)
      | some a =>
          if numIsZero a then (st, [.errDivZero], .cont)
          else
            let v := pyDiv m a
            let rw : PyState × Option Exn :=
              if pyTruthy st.n_digits then (st, none)
              else write_register st .R (pyStr (pyMod m a))
            match rw with
            | (st1, some e) => (st1, [], .crash e)
            | (st1, none) =>
                match write_register st1 .A (pyStr v) with
                | (st2, some e) => (st2, [], .crash e)
                | (st2, none) =>
                    match print_result st2.n_digits v with
                    | (s, none) => (st2, [.res s], .norm)
                    | (_, some e) => (st2, [], .crash e)

/-- The `√` key. -/
def sqrtKey (st : PyState) : PyState × List Line × Flow :=
  match read_register st .M with
  | none => (st, [], .crash .valErr)
  | some m =>
      if m.toQ < 0 then (st, [.errNegSqrt], .cont)
      else
        let v : PyNum := .pfloat (pySqrt m.toQ)
        match write_register st .A (pyStr v) with
        | (st1, some e) => (st1, [], .crash e)
        | (st1, none) =>
            match write_register st1 .M (pyStr (pyMul (.pint 2) v)) with
            | (st2, some e) => (st2, [], .crash e)
            | (st2, none) =>
                match print_result st2.n_digits v with
                | (s, none) => (st2, [.res s], .norm)
                | (_, some e) => (st2, [], .crash e)

/-- The `◊` key: `exec(f'print({previous_key}.read_register())')` when
`previous_key in 'BCDEF'` (the empty `previous_key` passes the substring test
and makes the exec fragment malformed), else `print_result(M.read_register())`. -/
def diamondKey (st : PyState) : PyState × List Line × Flow :=
  if pyInStr st.previous_key BCDEF then
    match st.previous_key with
    | [pk] =>
        match regOfChar pk with
        | some n =>
            match read_register st n with
            | none => (st, [], .crash .valErr)
            | some v => (st, [.num v], .norm)
        | none => (st, [], .crash .synErr)
    | _ => (st, [], .crash .synErr)
  else
    match read_register st .M with
    | none => (st, [], .crash .valErr)
    | some v =>
        match print_result st.n_digits v with
        | (s, none) => (st, [.res s], .norm)
        | (_, some e) => (st, [], .crash e)

/-- The `*` key.  After displaying the named register the source runs
`if pressed_key != 'R': exec(f'{pressed_key}.erase()')`; `pressed_key` is
`'*'`, so the guard is always true and the exec fragment is `*.erase()`,
whose compilation raises `SyntaxError` after the value was printed. -/
def starKey (st : PyState) : PyState × List Line × Flow :=
  if pyInStr st.previous_key ARBCDEF then
    match st.previous_key with
    | [pk] =>
        match regOfChar pk with
        | some n =>
            match read_register st n with
            | none => (st, [], .crash .valErr)
            | some v => (st, [.num v], .crash .synErr)
        | none => (st, [], .crash .synErr)
    | _ => (st, [], .crash .synErr)
  else
    match read_register st .M with
    | none => (st, [], .crash .valErr)
    | some v =>
        match print_result st.n_digits v with
        | (s, none) => (st, [.res s], .norm)
        | (_, some e) => (st, [], .crash e)

/-- The `↕` key.  After `value = A.read_register()` the exec fragment
`f'...{previous_key}.write_register(value))'` carries an unbalanced closing
parenthesis, so its compilation raises `SyntaxError` before any write. -/
def updownKey (st : PyState) : PyState × List Line × Flow :=
  if st.previous_key = ['A'] then
    match read_register st .A with
    | none => (st, [], .crash .valErr)
    | some v =>
        match write_register st .A (pyStr (pyAbs v)) with
        | (st1, some e) => (st1, [], .crash e)
        | (st1, none) => (st1, [], .norm)
  else if pyInStr st.previous_key BCDEF then
    match read_register st .A with
    | none => (st, [], .crash .valErr)
    | some _ => (st, [], .crash .synErr)
  else (st, [], .norm)

/-- One iteration of `loop`'s dispatch on a single-character key (the `d`
key, which consumes a further input line, is handled by `loop` itself).
Mirrors the `elif` chain of the source. -/
def stepKey (st : PyState) (c : Char) : PyState × List Line × Flow :=
  if pyInStr [c] DIGITS then
    if pyInStr st.previous_key DIGITS_COMMA then
      if is_full st .M then (st, [.errMfull], .norm)
      else (setDigit0 (shift st .M) .M (digitVal c), [], .norm)
    else (setDigit0 (erase st .M) .M (digitVal c), [], .norm)
  else if c = ',' then
    if pyInStr st.previous_key DIGITS then
      ({ st with floatAct := Function.update st.floatAct .M true }, [], .norm)
    else (st, [], .cont)
  else if c = '_' then (setSign st .M '-', [], .norm)
  else if c = '+' then binOp st pyAdd
  else if c = '-' then binOp st pySub
  else if c = '×' then mulKey st
  else if c = '÷' then divKey st
  else if c = '√' then sqrtKey st
  else if c = '◊' then diamondKey st
  else if c = '*' then starKey st
  else if c = 'r' then (eraseAll st, [], .norm)
  else if c = 'u' then
    ({ st with previous_key := st.previous_key_backup }, [], .norm)
  else if c = '↓' then
    ({ st with regArr := Function.update st.regArr .A (st.regArr .M) }, [], .norm)
  else if c = '↑' then
    if pyInStr st.previous_key BCDEF then
      match st.previous_key with
      | [pk] =>
          match regOfChar pk with
          | some n =>
              ({ st with regArr := Function.update st.regArr n (st.regArr .M) }, [], .norm)
          | none => (st, [], .crash .synErr)
      | _ => (st, [], .crash .synErr)
    else (st, [], .norm)
  else if c = '↕' then updownKey st
  else if c = 'P' then (st, [.debug], .norm)
  else (st, [], .norm)

/-- One key, including the trailing context update
`previous_key = pressed_key; previous_key_backup = previous_key`
(run on fall-through, skipped by `continue`, aborted by an exception). -/
def processKey (st : PyState) (c : Char) : PyState × List Line × Option Exn :=
  match stepKey st c with
  | (st1, ls, .norm) =>
      ({ st1 with previous_key := [c], previous_key_backup := [c] }, ls, none)
  | (st1, ls, .cont) => (st1, ls, none)
  | (st1, ls, .crash e) => (st1, ls, some e)

/-- The run's outcome: final state (the state at the raise point when an
exception escaped), everything printed, and the escaping exception if any. -/
structure RunRes where
  state : PyState
  output : List Line
  exn : Option Exn

/-- The main `loop` over a finite list of input lines, one line per call.
A line whose length is not 1 is skipped.  The `d` key's inner `input()` call
is defunctionalized through the `pending` flag: after a `d` key (which, as in
the source, updates the context to `'d'` before anything else happens) the
next raw line is consumed whole into `n_digits`; `input()` at end of input
raises `EOFError`. -/
def loopAux (st : PyState) (pending : Bool) : List (List Char) → RunRes
  | [] => if pending then ⟨st, [], some .eofErr⟩ else ⟨st, [], none⟩
  | tok :: rest =>
      if pending then loopAux { st with n_digits := .vstr tok } false rest
      else if tok.length = 1 then
        let c := tok.headD ' '
        if c = 'd' then
          loopAux { st with previous_key := ['d'], previous_key_backup := ['d'] } true rest
        else
          let p := processKey st c
          if p.2.2.isSome then ⟨p.1, p.2.1, p.2.2⟩
          else
            let r := loopAux p.1 false rest
            ⟨r.state, p.2.1 ++ r.output, r.exn⟩
      else loopAux st false rest

/-- Run the main loop on a list of input lines. -/
def loop (st : PyState) (input : List (List Char)) : RunRes := loopAux st false input

/-- Index of each register's initially-owned array. -/
def regIndex : RegName → ℕ
  | .M => 0
  | .A => 1
  | .R => 2
  | .B => 3
  | .C => 4
  | .D => 5
  | .E => 6
  | .F => 7

/-- The module-level state at program start: eight freshly allocated zero
arrays, empty `previous_key` and backup, `n_digits = 0`. -/
def initState : PyState :=
  { heap := List.replicate 8 zeros24
    regArr := regIndex
    floatAct := fun _ => false
    previous_key := []
    previous_key_backup := []
    n_digits := .vint 0 }

/-- Every key character the dispatch chain recognizes (the `d` key is
recognized by `loop` itself). -/
def handledKeys : List Char :=
  DIGITS ++ [',', '_', '+', '-', '×', '÷', '√', '◊', '*', 'r', 'u', '↓', '↑', '↕', 'd', 'P']

/-- A state with a one-character `previous_key`, as after any processed key:
here the clear-all key. -/
def stAfterR : PyState :=
  { initState with previous_key := ['r'], previous_key_backup := ['r'] }

/-- The state after the single key `5` from program start (M holds 5, A reads 0). -/
def stAfter5 : PyState := (loop initState [['5']]).state

/-- The character rendering of one decimal digit cell. -/
def dChar (v : ℤ) : Char := Char.ofNat (48 + v.toNat)

/-- The value of a digit-cell list, most significant first. -/
def listVal (l : List ℤ) : ℤ := l.foldl (fun a v => 10 * a + v) 0

/-- The integer denoted by a list of digit keys in entry order (the most
recently entered digit is least significant). -/
def intOfDigits (ds : List Char) : ℤ := ds.foldl (fun a c => 10 * a + digitVal c) 0

/-- The M array after entering the digit cells `vs` (entry order): the cells
sit reversed at the low indices, zeros above, float position and sign clear. -/
def digitsArr (vs : List ℤ) : Arr :=
  (vs.reverse ++ List.replicate (22 - vs.length) 0) ++ [0, 0]

/-- All cells of `l` are decimal digits. -/
def DigitBounds (l : List ℤ) : Prop := ∀ v ∈ l, 0 ≤ v ∧ v < 10

/-- Mid-entry invariant: M references the array at heap index `i0`, holding
exactly the digits `vs` with no float state, and the context is a digit key. -/
def EntryInv (st : PyState) (i0 : ℕ) (vs : List ℤ) : Prop :=
  st.regArr .M = i0 ∧ i0 < st.heap.length ∧ st.heap.getD i0 [] = digitsArr vs ∧
  st.floatAct .M = false ∧ (∃ pc, pc ∈ DIGITS ∧ st.previous_key = [pc]) ∧ DigitBounds vs

/-- Python's substring test on a one-character needle is membership. -/
theorem pyInStr_singleton_iff (c : Char) (t : List Char) : pyInStr [c] t = true ↔ c ∈ t := by
  induction t with
  | nil => simp [pyInStr]
  | cons a t ih =>
      simp only [pyInStr, List.length_cons, List.length_nil, List.take_succ_cons,
        List.take_zero, Bool.or_eq_true, beq_iff_eq, List.mem_cons, ih,
        List.cons.injEq, and_true]
      constructor
      · rintro (h | h)
        · exact Or.inl h.symm
        · exact Or.inr h
      · rintro (h | h)
        · exact Or.inl h.symm
        · exact Or.inr h

/-- A one-character `previous_key` outside a character list fails the
substring test. -/
theorem pyInStr_singleton_false (c : Char) (t : List Char) (hp : ¬ c ∈ t) :
    pyInStr [c] t = false := by
  cases h : pyInStr [c] t
  · rfl
  · exact absurd ((pyInStr_singleton_iff c t).1 h) hp

/-- C2 counterexample: at program start `previous_key` is the empty string —
not a digit — yet the comma key is not a no-op there: Python's substring test
`'' in '0123456789'` is true, so the comma sets `M.float_active` and becomes
the new `previous_key`. -/
theorem comma_initial_state_not_noop :
    (processKey initState ',').1.floatAct .M = true ∧
    (processKey initState ',').1.previous_key = [','] ∧
    initState.previous_key = [] ∧ initState.floatAct .M = false := by
  exact ⟨by decide, by decide, by decide, by decide⟩

/-- C2 (amended): for every state whose `previous_key` is a single character
that is not a digit, the comma key is a complete no-op: the state (registers,
`float_active` flags, `previous_key`, backup) is returned unchanged and
nothing is printed. -/
theorem comma_nonempty_nondigit_noop (st : PyState) (p : Char)
    (hprev : st.previous_key = [p]) (hp : ¬ p ∈ DIGITS) :
    processKey st ',' = (st, [], none) := by
  have hb : pyInStr st.previous_key DIGITS = false := by
    rw [hprev]; exact pyInStr_singleton_false p DIGITS hp
  have hd : pyInStr [','] DIGITS = false := by decide
  simp [processKey, stepKey, hb, hd]

/-- Witness for `comma_nonempty_nondigit_noop` at the state reached after the
clear-all key. -/
theorem comma_noop_witness : processKey stAfterR ',' = (stAfterR, [], none) :=
  comma_nonempty_nondigit_noop stAfterR 'r' rfl (by decide)

/-- C3 counterexample: with A reading 0 (after the single key `5`), the
divide key does not update `previous_key` to the divide key — the handler's
`continue` skips the context update, so `previous_key` stays `'5'`. -/
theorem div_zero_context_not_updated :
    read_register stAfter5 .A = some (.pint 0) ∧
    (processKey stAfter5 '÷').1.previous_key = ['5'] ∧
    (processKey stAfter5 '÷').1.previous_key ≠ ['÷'] := by
  exact ⟨by decide, by decide, by decide⟩

/-- C3 (amended): whenever A reads as numeric zero (and M is readable, which
the source evaluates first), the divide key reports division by zero and
leaves the whole interpreter state — every register and also `previous_key`
and its backup — exactly unchanged: the `continue` skips the context update. -/
theorem div_zero_aborts_step (st : PyState) (m a : PyNum)
    (hm : read_register st .M = some m) (ha : read_register st .A = some a)
    (hz : numIsZero a = true) :
    processKey st '÷' = (st, [.errDivZero], none) := by
  have hd : pyInStr ['÷'] DIGITS = false := by decide
  simp [processKey, stepKey, divKey, hd, hm, ha, hz]

/-- Witness for `div_zero_aborts_step`: after the single key `5`, M reads 5
and A reads 0, and the divide key only reports the error. -/
theorem div_zero_aborts_witness : processKey stAfter5 '÷' = (stAfter5, [.errDivZero], none) :=
  div_zero_aborts_step stAfter5 (.pint 5) (.pint 0) (by decide) (by decide) (by decide)

/-- C5 counterexample: an unrecognized single character is not a context
no-op: after `5`, processing `x` moves `previous_key` (and its backup) from
`'5'` to `'x'`. -/
theorem unknown_key_updates_context :
    stAfter5.previous_key = ['5'] ∧
    (loop initState [['5'], ['x']]).state.previous_key = ['x'] ∧
    (loop initState [['5'], ['x']]).state.previous_key_backup = ['x'] := by
  exact ⟨by decide, by decide, by decide⟩

/-- C5 (amended): a token whose length is not 1 is skipped entirely (full
no-op); an unrecognized single character mutates no register (the heap and
register bindings are untouched) but does update the context: `previous_key`
and its backup become that character. -/
theorem unknown_key_frame :
    (∀ (st : PyState) (tok : List Char), tok.length ≠ 1 → loop st [tok] = ⟨st, [], none⟩) ∧
    (∀ (st : PyState) (c : Char), ¬ c ∈ handledKeys →
      loop st [[c]] =
        ⟨{ st with previous_key := [c], previous_key_backup := [c] }, [], none⟩) := by
  constructor
  · intro st tok hlen
    simp [loop, loopAux, hlen]
  · intro st c hc
    have hmem : ∀ k ∈ handledKeys, c ≠ k := fun k hk he => hc (he ▸ hk)
    have hdig : pyInStr [c] DIGITS = false :=
      pyInStr_singleton_false c DIGITS fun h =>
        hc (by simp only [handledKeys, List.mem_append]; exact Or.inl h)
    have h1 : c ≠ ',' := hmem ',' (by decide)
    have h2 : c ≠ '_' := hmem '_' (by decide)
    have h3 : c ≠ '+' := hmem '+' (by decide)
    have h4 : c ≠ '-' := hmem '-' (by decide)
    have h5 : c ≠ '×' := hmem '×' (by decide)
    have h6 : c ≠ '÷' := hmem '÷' (by decide)
    have h7 : c ≠ '√' := hmem '√' (by decide)
    have h8 : c ≠ '◊' := hmem '◊' (by decide)
    have h9 : c ≠ '*' := hmem '*' (by decide)
    have h10 : c ≠ 'r' := hmem 'r' (by decide)
    have h11 : c ≠ 'u' := hmem 'u' (by decide)
    have h12 : c ≠ '↓' := hmem '↓' (by decide)
    have h13 : c ≠ '↑' := hmem '↑' (by decide)
    have h14 : c ≠ '↕' := hmem '↕' (by decide)
    have h15 : c ≠ 'd' := hmem 'd' (by decide)
    have h16 : c ≠ 'P' := hmem 'P' (by decide)
    simp [loop, loopAux, processKey, stepKey, hdig, h1, h2, h3, h4, h5, h6, h7,
      h8, h9, h10, h11, h12, h13, h14, h15, h16]

/-- Witness for `unknown_key_frame` at the two-character token `xy` and the
unrecognized key `x`. -/
theorem unknown_key_frame_witness :
    loop stAfter5 [['x', 'y']] = ⟨stAfter5, [], none⟩ ∧
    loop stAfter5 [['x']] =
      ⟨{ stAfter5 with previous_key := ['x'], previous_key_backup := ['x'] }, [], none⟩ :=
  ⟨unknown_key_frame.1 stAfter5 ['x', 'y'] (by decide),
   unknown_key_frame.2 stAfter5 'x' (by decide)⟩

/-- C1 (code bug): the context update runs `previous_key = pressed_key`
before `previous_key_backup = previous_key`, so the backup never trails one
step behind — after the single key `5` it is already `'5'` (not the prior
empty context).  The undo key's restore is then overwritten by the same
update, so after `5`, `+`, `u` the context is `'u'`, not the context
`'5'` that held after `X = 5`. -/
theorem backup_and_undo_trace :
    (loop initState [['5']]).state.previous_key_backup = ['5'] ∧
    (loop initState [['5'], ['+'], ['u']]).state.previous_key = ['u'] ∧
    (loop initState [['5'], ['+'], ['u']]).state.previous_key_backup = ['u'] ∧
    (loop initState [['5'], ['+'], ['u']]).exn = none := by
  exact ⟨by decide, by decide, by decide, by decide⟩

/-- C4 (code bug): a 23-digit value (here `10^22`) does not overflow
`write_register` — the digit loop only raises `IndexError` at index 24, so
the 23rd digit is silently written into cell 22, the float-position slot,
and no error is reported; the register is not left in its prior state. -/
theorem write_23_digits_no_overflow :
    write_body (.vint 0) zeros24 false ('1' :: List.replicate 22 '0') =
      (List.replicate 22 (0 : ℤ) ++ [1, 0], false, none) ∧
    List.replicate 22 (0 : ℤ) ++ [1, 0] ≠ zeros24 := by
  exact ⟨by decide, by decide⟩

/-- C6 (code bug): the transfer-down key executes `A.reg = M.reg`, which
makes A reference the same array object as M and does not copy
`float_active`.  After entering `2,5` (the value 2.5) and pressing transfer
down, A reads the integer 25 (float state not copied, `regArr` aliased); a
subsequent sign key on M flips A to −25 through the shared array. -/
theorem transfer_down_shares_array :
    (loop initState [['2'], [','], ['5'], ['↓']]).exn = none ∧
    read_register (loop initState [['2'], [','], ['5'], ['↓']]).state .A = some (.pint 25) ∧
    (loop initState [['2'], [','], ['5'], ['↓']]).state.floatAct .A = false ∧
    (loop initState [['2'], [','], ['5'], ['↓']]).state.floatAct .M = true ∧
    (loop initState [['2'], [','], ['5'], ['↓']]).state.regArr .A =
      (loop initState [['2'], [','], ['5'], ['↓']]).state.regArr .M ∧
    read_register (loop initState [['2'], [','], ['5'], ['↓'], ['_']]).state .A =
      some (.pint (-25)) := by
  exact ⟨by decide, by decide, by decide, by decide, by decide, by decide⟩

/-- C8 (code bug): with `previous_key = 'A'` (A holding 5), the secondary
display key prints A's raw value but then executes
`if pressed_key != 'R': exec(f'{pressed_key}.erase()')` — `pressed_key` is
`'*'`, so the guard is vacuously true and the exec fragment `*.erase()`
raises `SyntaxError`; the run aborts and A is not erased. -/
theorem star_key_crashes :
    (loop initState [['5'], ['+'], ['A'], ['*']]).exn = some .synErr ∧
    (loop initState [['5'], ['+'], ['A'], ['*']]).output = [.num (.pint 5)] ∧
    read_register (loop initState [['5'], ['+'], ['A'], ['*']]).state .A = some (.pint 5) := by
  exact ⟨by decide, by decide, by decide⟩

/-- C9 (code bug): with `display_digits = 0`, `print_result` renders the
integer 30 as `300`: `str(30)[::-1].find('.')` is `-1`, so
`n_digits - (-1) = 1` zero is appended to the integer text. -/
theorem print_result_pads_integer :
    print_result (.vint 0) (.pint 30) = (['3', '0', '0'], none) := by
  decide

/-- C10 (code bug): after the keys `5`, `,` (which set `float_active` while
`float_pos` is still 0), reading M fails — the read builds the string
`.+0000000000000000000005`, whose `float()` parse raises `ValueError` — and
a subsequent display of M through the primary display key aborts the run. -/
theorem read_after_comma_fails :
    read_register (loop initState [['5'], [',']]).state .M = none ∧
    (loop initState [['5'], [',']]).exn = none ∧
    (loop initState [['5'], [','], ['◊']]).exn = some .valErr := by
  exact ⟨by decide, by decide, by decide⟩

/-- A store above the taken prefix does not change it. -/
theorem take_set_le (l : List ℤ) (m n : ℕ) (x : ℤ) (h : m ≤ n) :
    (l.set n x).take m = l.take m :=
  List.ext_getElem? fun i => by
    rw [List.getElem?_take, List.getElem?_take]
    split
    · next h2 => rw [List.getElem?_set_ne (by omega)]
    · rfl

/-- Closed form of the digit-moving countdown: for `i + 1 < |a|` it keeps
cell 0, moves cells `0..i-1` one place up, and leaves the tail from `i + 1`. -/
theorem shiftLoop_spec (i : ℕ) : ∀ (a : Arr), i + 1 < a.length →
    shiftLoop a i = a.take 1 ++ a.take i ++ a.drop (i + 1) := by
  induction i with
  | zero =>
      intro a _
      simp only [shiftLoop, List.take_zero, List.append_nil]
      exact (List.take_append_drop 1 a).symm
  | succ i ih =>
      intro a hlen
      have hi1 : i + 1 < a.length := by omega
      have hi : i < a.length := by omega
      have hlen2 : i + 1 < (a.set (i + 1) (a.getD i 0)).length := by
        simpa using hi1
      rw [shiftLoop, ih _ hlen2]
      rw [take_set_le _ _ _ _ (by omega), take_set_le _ _ _ _ (by omega)]
      rw [List.drop_set]
      simp only [lt_irrefl, if_false, Nat.sub_self]
      rw [List.drop_eq_getElem_cons hi1, List.set_cons_zero, List.getD_eq_getElem _ _ hi]
      have hts : a.take (i + 1) = a.take i ++ [a[i]] := by
        rw [List.take_succ, List.getElem?_eq_getElem hi]
        rfl
      rw [hts]
      simp only [List.append_assoc, List.singleton_append]

/-- `Register.shift`'s array effect on a full-length register array. -/
theorem shiftArr_spec (l : List ℤ) (h : l.length = 24) :
    shiftArr l = l.take 1 ++ l.take 21 ++ l.drop 22 :=
  shiftLoop_spec 21 l (by omega)

/-- `str` of a single digit cell is its digit character. -/
theorem intStr_digit (v : ℤ) (h0 : 0 ≤ v) (h9 : v < 10) : intStr v = [dChar v] := by
  interval_cases v <;> decide

/-- The numeric value `int` extracts from a digit character. -/
theorem dChar_val (v : ℤ) (h0 : 0 ≤ v) (h9 : v < 10) : ((dChar v).toNat : ℤ) - 48 = v := by
  interval_cases v <;> decide

/-- Digit characters pass `isDigit`. -/
theorem dChar_isDigit (v : ℤ) (h0 : 0 ≤ v) (h9 : v < 10) : (dChar v).isDigit = true := by
  interval_cases v <;> decide

/-- Joining `str` of digit cells is the digit-character string. -/
theorem flatten_map_intStr (l : List ℤ) (h : ∀ v ∈ l, 0 ≤ v ∧ v < 10) :
    (l.map intStr).flatten = l.map dChar := by
  induction l with
  | nil => rfl
  | cons a t ih =>
      have ha := h a (by simp)
      simp [intStr_digit a ha.1 ha.2, ih fun v hv => h v (by simp [hv])]

/-- Leading zero characters do not change a parsed value. -/
theorem natVal_append_zeros (m : ℕ) (t : List Char) :
    natVal (List.replicate m '0' ++ t) = natVal t := by
  induction m with
  | zero => rfl
  | succ k ih =>
      have h0 : (10 * (0 : ℤ) + ((('0'.toNat : ℕ) : ℤ) - 48)) = 0 := by decide
      simpa [natVal, List.replicate_succ, h0] using ih

/-- Parsing the digit characters of digit cells folds to the cells' value. -/
theorem foldl_map_dChar (l : List ℤ) (h : ∀ v ∈ l, 0 ≤ v ∧ v < 10) (a : ℤ) :
    (l.map dChar).foldl (fun x c => 10 * x + ((c.toNat : ℤ) - 48)) a =
      l.foldl (fun x v => 10 * x + v) a := by
  induction l generalizing a with
  | nil => rfl
  | cons v t ih =>
      have hv := h v (by simp)
      simp only [List.map_cons, List.foldl_cons, dChar_val v hv.1 hv.2]
      exact ih (fun w hw => h w (by simp [hw])) _

/-- `natVal` on digit characters of digit cells. -/
theorem natVal_map_dChar (l : List ℤ) (h : ∀ v ∈ l, 0 ≤ v ∧ v < 10) :
    natVal (l.map dChar) = listVal l :=
  foldl_map_dChar l h 0

/-- The digit part of `digitsArr` has exactly the 22 digit slots. -/
theorem digitsArr_front_length (vs : List ℤ) (hk : vs.length ≤ 22) :
    (vs.reverse ++ List.replicate (22 - vs.length) (0 : ℤ)).length = 22 := by
  simp; omega

/-- A `digitsArr` is a full register array. -/
theorem digitsArr_length (vs : List ℤ) (hk : vs.length ≤ 22) :
    (digitsArr vs).length = 24 := by
  simp [digitsArr]; omega

/-- The 22 digit slots of a `digitsArr`. -/
theorem digitsArr_take22 (vs : List ℤ) (hk : vs.length ≤ 22) :
    (digitsArr vs).take 22 = vs.reverse ++ List.replicate (22 - vs.length) 0 :=
  List.take_left' (digitsArr_front_length vs hk)

/-- The metadata slots of a `digitsArr`. -/
theorem digitsArr_drop22 (vs : List ℤ) (hk : vs.length ≤ 22) :
    (digitsArr vs).drop 22 = [0, 0] :=
  List.drop_left' (digitsArr_front_length vs hk)

/-- In-range read of a replicated list. -/
theorem getD_replicate_lt (n i : ℕ) (x : ℤ) (h : i < n) :
    (List.replicate n x).getD i 0 = x := by
  rw [List.getD_eq_getElem _ _ (by simpa using h)]
  simp

/-- A `digitsArr` has a clear sign slot. -/
theorem digitsArr_getD23 (vs : List ℤ) (hk : vs.length ≤ 22) :
    (digitsArr vs).getD 23 0 = 0 := by
  rw [digitsArr, List.getD_append_right _ _ _ _
    (by rw [digitsArr_front_length vs hk]; omega), digitsArr_front_length vs hk]
  rfl

/-- A `digitsArr` has a clear float-position slot. -/
theorem digitsArr_getD22 (vs : List ℤ) (hk : vs.length ≤ 22) :
    (digitsArr vs).getD 22 0 = 0 := by
  rw [digitsArr, List.getD_append_right _ _ _ _
    (le_of_eq (digitsArr_front_length vs hk)), digitsArr_front_length vs hk]
  rfl

/-- Below 22 digits the top digit slot of a `digitsArr` is clear. -/
theorem digitsArr_getD21 (vs : List ℤ) (hk : vs.length ≤ 21) :
    (digitsArr vs).getD 21 0 = 0 := by
  rw [digitsArr, List.getD_append _ _ _ _
    (by rw [digitsArr_front_length vs (by omega)]; omega),
    List.getD_append_right _ _ _ _ (by simpa using hk)]
  exact getD_replicate_lt _ _ _ (by simp; omega)

/-- The 21 low digit slots of a `digitsArr`. -/
theorem digitsArr_take21 (vs : List ℤ) (hk : vs.length ≤ 21) :
    (digitsArr vs).take 21 = vs.reverse ++ List.replicate (21 - vs.length) 0 := by
  rw [digitsArr, List.take_append_eq_append_take, digitsArr_front_length vs (by omega),
    show (21 - 22 : ℕ) = 0 from rfl, List.take_zero, List.append_nil,
    List.take_append_eq_append_take, List.take_of_length_le (by simpa using hk),
    List.take_replicate]
  have hm : min (21 - vs.reverse.length) (22 - vs.length) = 21 - vs.length := by
    simp; omega
  rw [hm]

/-- Shift-then-store on a `digitsArr` appends the new least significant
digit. -/
theorem shiftArr_digitsArr_set (vs : List ℤ) (d : ℤ) (hk : vs.length ≤ 21) :
    (shiftArr (digitsArr vs)).set 0 d = digitsArr (vs ++ [d]) := by
  rw [shiftArr_spec _ (digitsArr_length vs (by omega)), digitsArr_take21 vs hk,
    digitsArr_drop22 vs (by omega)]
  obtain ⟨a, t, h1⟩ := List.exists_cons_of_ne_nil
    (l := digitsArr vs) (by
      intro hnil
      have h24 := digitsArr_length vs (by omega)
      rw [hnil] at h24
      simp at h24)
  rw [h1]
  simp only [List.take_succ_cons, List.take_zero, List.cons_append, List.nil_append,
    List.set_cons_zero]
  have h2 : 22 - (vs ++ [d]).length = 21 - vs.length := by
    simp only [List.length_append, List.length_singleton]
    omega
  simp [digitsArr, h2, List.append_assoc]

/-- In-range read after an in-range store. -/
theorem getD_set_self {α : Type} (l : List α) (i : ℕ) (a d : α) (h : i < l.length) :
    (l.set i a).getD i d = a := by
  rw [List.getD_eq_getElem _ _ (by simpa using h)]
  exact List.getElem_set_self _

/-- A fresh zero array with one digit stored is a one-digit `digitsArr`. -/
theorem zeros24_set0 (x : ℤ) : zeros24.set 0 x = digitsArr [x] := by
  rw [show zeros24 = 0 :: (List.replicate 21 (0:ℤ) ++ [0, 0]) from by decide,
    List.set_cons_zero]
  rfl

/-- Reading M mid-entry yields the entered digits' value as an `int`. -/
theorem read_digitsArr (st : PyState) (vs : List ℤ)
    (hk : vs.length ≤ 22) (hbd : DigitBounds vs)
    (harr : getArr st .M = digitsArr vs) (hfa : st.floatAct .M = false) :
    read_register st .M = some (.pint (listVal vs)) := by
  have hbounds : DigitBounds (vs.reverse ++ List.replicate (22 - vs.length) (0:ℤ)) := by
    intro v hv
    rcases List.mem_append.1 hv with h | h
    · exact hbd v (List.mem_reverse.1 h)
    · rw [List.eq_of_mem_replicate h]
      exact ⟨le_refl 0, by norm_num⟩
  have hrev : ((vs.reverse ++ List.replicate (22 - vs.length) (0:ℤ)).map dChar).reverse
      = List.replicate (22 - vs.length) '0' ++ vs.map dChar := by
    rw [← List.map_reverse, List.reverse_append, List.reverse_replicate, List.reverse_reverse,
      List.map_append, List.map_replicate, show dChar 0 = '0' by decide]
  have hne : List.replicate (22 - vs.length) '0' ++ vs.map dChar ≠ [] := by
    intro h0
    have h1 : (List.replicate (22 - vs.length) '0' ++ vs.map dChar).length = 0 := by
      rw [h0]; rfl
    simp only [List.length_append, List.length_replicate, List.length_map] at h1
    omega
  have hall : (List.replicate (22 - vs.length) '0' ++ vs.map dChar).all (·.isDigit) = true := by
    rw [List.all_eq_true]
    intro c hc
    rcases List.mem_append.1 hc with h | h
    · rw [List.eq_of_mem_replicate h]; decide
    · obtain ⟨v, hv, rfl⟩ := List.mem_map.1 h
      exact dChar_isDigit v (hbd v hv).1 (hbd v hv).2
  have hparse : pyIntParse ('+' :: (List.replicate (22 - vs.length) '0' ++ vs.map dChar))
      = some (listVal vs) := by
    simp only [pyIntParse, if_pos (And.intro hne hall)]
    rw [natVal_append_zeros, natVal_map_dChar vs hbd]
  simp only [read_register, harr, hfa, Bool.false_eq_true, if_false,
    digitsArr_take22 vs hk, digitsArr_getD23 vs hk,
    flatten_map_intStr _ hbounds, beq_self_eq_true, if_true,
    List.reverse_append, List.reverse_cons, List.reverse_nil, List.nil_append,
    List.singleton_append, hrev, hparse]
  rfl

/-- Digit keys carry digit values. -/
theorem digitVal_bounds : ∀ c ∈ DIGITS, 0 ≤ digitVal c ∧ digitVal c < 10 := by decide

/-- A digit key mid-entry shifts M and stores the new digit, preserving the
entry invariant. -/
theorem entry_step (st : PyState) (i0 : ℕ) (vs : List ℤ) (c : Char)
    (hreg : st.regArr .M = i0) (hlen : i0 < st.heap.length)
    (hheap : st.heap.getD i0 [] = digitsArr vs) (hfa : st.floatAct .M = false)
    (hpc : ∃ pc, pc ∈ DIGITS ∧ st.previous_key = [pc])
    (hk : vs.length < 22) (hc : c ∈ DIGITS) :
    processKey st c =
      ({ st with heap := st.heap.set i0 (digitsArr (vs ++ [digitVal c])),
                 previous_key := [c], previous_key_backup := [c] }, [], none) := by
  obtain ⟨pc, hpcd, hprev⟩ := hpc
  have harr : getArr st .M = digitsArr vs := by
    simp only [getArr, hreg, hheap]
  have hg1 : pyInStr [c] DIGITS = true := (pyInStr_singleton_iff c DIGITS).2 hc
  have hg2 : pyInStr st.previous_key DIGITS_COMMA = true := by
    rw [hprev]
    exact (pyInStr_singleton_iff pc DIGITS_COMMA).2
      (by simp only [DIGITS_COMMA, List.mem_append]; exact Or.inl hpcd)
  have hfull : is_full st .M = false := by
    simp only [is_full, float_pos, harr, digitsArr_getD21 vs (by omega),
      digitsArr_getD22 vs (by omega)]
    decide
  have hgd : (st.heap.set (st.regArr .M) (shiftArr (digitsArr vs))).getD (st.regArr .M) []
      = shiftArr (digitsArr vs) :=
    getD_set_self _ _ _ _ (by rw [hreg]; simpa using hlen)
  have hset : (shiftArr (digitsArr vs)).set 0 (digitVal c) = digitsArr (vs ++ [digitVal c]) :=
    shiftArr_digitsArr_set vs (digitVal c) (by omega)
  simp only [processKey, stepKey, hg1, if_true, hg2, hfull, Bool.false_eq_true, if_false,
    setDigit0, shift, setArr, getArr, harr, hfa, hgd, hset, List.set_set, hreg]
  rw [hheap, getD_set_self _ _ _ _ hlen, hset]

/-- A digit key after a non-digit, non-comma context erases M (allocating a
fresh array) and stores the digit. -/
theorem entry_start (st : PyState) (p c : Char)
    (hprev : st.previous_key = [p]) (hp : ¬ p ∈ DIGITS_COMMA) (hc : c ∈ DIGITS) :
    processKey st c =
      ({ st with heap := st.heap ++ [digitsArr [digitVal c]],
                 regArr := Function.update st.regArr .M st.heap.length,
                 floatAct := Function.update st.floatAct .M false,
                 previous_key := [c], previous_key_backup := [c] }, [], none) := by
  have hb : pyInStr st.previous_key DIGITS_COMMA = false := by
    rw [hprev]; exact pyInStr_singleton_false p _ hp
  have hg1 : pyInStr [c] DIGITS = true := (pyInStr_singleton_iff c DIGITS).2 hc
  have hgd : (st.heap ++ [zeros24]).getD st.heap.length [] = zeros24 := by
    rw [List.getD_append_right _ _ _ _ (le_refl _), Nat.sub_self]
    rfl
  have hsz : zeros24.set 23 (if ('+' : Char) = '-' then 1 else 0) = zeros24 := by decide
  have hsa : (st.heap ++ [zeros24]).set st.heap.length zeros24 = st.heap ++ [zeros24] := by
    rw [List.set_append_right _ _ (le_refl _), Nat.sub_self]
    rfl
  have hfin : (st.heap ++ [zeros24]).set st.heap.length (zeros24.set 0 (digitVal c))
      = st.heap ++ [digitsArr [digitVal c]] := by
    rw [List.set_append_right _ _ (le_refl _), Nat.sub_self, zeros24_set0]
    rfl
  simp only [processKey, stepKey, hg1, if_true, hb, Bool.false_eq_true, if_false,
    setDigit0, erase, setSign, setArr, getArr, Function.update_same, hgd, hsz, hsa,
    List.set_set, hfin]

/-- Running a list of digit keys from a mid-entry state appends their digits
to M. -/
theorem entry_run (ds : List Char) : ∀ (st : PyState) (i0 : ℕ) (vs : List ℤ),
    EntryInv st i0 vs → (∀ c ∈ ds, c ∈ DIGITS) → vs.length + ds.length ≤ 22 →
    (loop st (ds.map fun c => [c])).exn = none ∧
    read_register (loop st (ds.map fun c => [c])).state .M =
      some (.pint (listVal (vs ++ ds.map digitVal))) := by
  induction ds with
  | nil =>
      intro st i0 vs hinv _ hlen
      obtain ⟨hreg, _, hheap, hfa, _, hbd⟩ := hinv
      refine ⟨rfl, ?_⟩
      simp only [List.map_nil, List.append_nil]
      exact read_digitsArr st vs (by omega) hbd (by simp only [getArr, hreg, hheap]) hfa
  | cons c ds ih =>
      intro st i0 vs hinv hds hlen
      obtain ⟨hreg, hl, hheap, hfa, hpc, hbd⟩ := hinv
      have hc : c ∈ DIGITS := hds c (by simp)
      have hstep := entry_step st i0 vs c hreg hl hheap hfa hpc (by simp at hlen; omega) hc
      have hcd : c ≠ 'd' := fun h => absurd (h ▸ hc) (by decide)
      have hloop : loop st ((c :: ds).map fun x => [x]) =
          loop ({ st with
                  heap := st.heap.set i0 (digitsArr (vs ++ [digitVal c]))
                  previous_key := [c]
                  previous_key_backup := [c] }) (ds.map fun x => [x]) := by
        simp [loop, loopAux, hcd, hstep]
      rw [hloop]
      have hinv2 : EntryInv
          ({ st with
             heap := st.heap.set i0 (digitsArr (vs ++ [digitVal c]))
             previous_key := [c]
             previous_key_backup := [c] }) i0 (vs ++ [digitVal c]) := by
        refine ⟨hreg, by simpa using hl, getD_set_self _ _ _ _ hl, hfa, ⟨c, hc, rfl⟩, ?_⟩
        intro v hv
        rcases List.mem_append.1 hv with h | h
        · exact hbd v h
        · rw [List.mem_singleton.1 h]
          exact digitVal_bounds c hc
      have hres := ih _ i0 (vs ++ [digitVal c]) hinv2
        (fun x hx => hds x (by simp [hx])) (by simp at hlen ⊢; omega)
      simpa [List.append_assoc] using hres

/-- `listVal` over the digit values of keys is `intOfDigits`. -/
theorem listVal_map_digitVal (ds : List Char) : listVal (ds.map digitVal) = intOfDigits ds := by
  simp [listVal, intOfDigits, List.foldl_map]

/-- C7: from any state whose `previous_key` is a single character that is
neither a digit nor the comma, a nonempty sequence of at most 22 digit keys
(no comma) runs without error and leaves M reading exactly the integer formed
by the digits in entry order, the most recently entered digit being least
significant. -/
theorem digit_entry_value (st : PyState) (p : Char) (ds : List Char)
    (hprev : st.previous_key = [p]) (hp : ¬ p ∈ DIGITS_COMMA)
    (hne : ds ≠ []) (hlen : ds.length ≤ 22) (hds : ∀ c ∈ ds, c ∈ DIGITS) :
    (loop st (ds.map fun c => [c])).exn = none ∧
    read_register (loop st (ds.map fun c => [c])).state .M = some (.pint (intOfDigits ds)) := by
  obtain ⟨c, ds2, rfl⟩ : ∃ c t, ds = c :: t := by
    cases ds with
    | nil => exact absurd rfl hne
    | cons a t => exact ⟨a, t, rfl⟩
  have hc : c ∈ DIGITS := hds c (by simp)
  have hstart := entry_start st p c hprev hp hc
  have hcd : c ≠ 'd' := fun h => absurd (h ▸ hc) (by decide)
  have hloop : loop st ((c :: ds2).map fun x => [x]) =
      loop ({ st with
              heap := st.heap ++ [digitsArr [digitVal c]]
              regArr := Function.update st.regArr .M st.heap.length
              floatAct := Function.update st.floatAct .M false
              previous_key := [c]
              previous_key_backup := [c] }) (ds2.map fun x => [x]) := by
    simp [loop, loopAux, hcd, hstart]
  rw [hloop]
  have hinv : EntryInv
      ({ st with
         heap := st.heap ++ [digitsArr [digitVal c]]
         regArr := Function.update st.regArr .M st.heap.length
         floatAct := Function.update st.floatAct .M false
         previous_key := [c]
         previous_key_backup := [c] }) st.heap.length [digitVal c] := by
    refine ⟨by simp [Function.update_same], by simp, ?_, by simp [Function.update_same],
      ⟨c, hc, rfl⟩, ?_⟩
    · rw [List.getD_append_right _ _ _ _ (le_refl _), Nat.sub_self]
      rfl
    · intro v hv
      rw [List.mem_singleton.1 hv]
      exact digitVal_bounds c hc
  have hrun := entry_run ds2 _ st.heap.length [digitVal c] hinv
    (fun x hx => hds x (by simp [hx])) (by simp at hlen ⊢; omega)
  have hval : listVal ([digitVal c] ++ List.map digitVal ds2) = intOfDigits (c :: ds2) := by
    rw [show ([digitVal c] ++ List.map digitVal ds2 : List ℤ) = List.map digitVal (c :: ds2)
      from by simp]
    exact listVal_map_digitVal _
  rw [hval] at hrun
  exact hrun

/-- Witness for `digit_entry_value`: after the clear-all key, entering `1`
then `2` leaves M reading 12. -/
theorem digit_entry_value_witness :
    (loop stAfterR [['1'], ['2']]).exn = none ∧
    read_register (loop stAfterR [['1'], ['2']]).state .M = some (.pint 12) := by
  have h := digit_entry_value stAfterR 'r' ['1', '2'] rfl (by decide) (by decide) (by decide)
    (by decide)
  simpa [show intOfDigits ['1', '2'] = 12 from by decide] using h

end Olivetti
